import Mathlib

/-!
Shallow embedding of gitty's `src/lib/parser.js` (the output-parsing layer)
and proofs about its transforms.

JavaScript strings are modelled as Lean `String` (a structure holding a
`List Char`), and the JavaScript primitives used by the source
(`String.prototype.split`, `substring`, `trim`, `replace`, `indexOf`,
`Array.prototype.splice`, object property assignment, `JSON.parse`, and the
two regular expressions appearing in the source) are given explicit
executable models below.  Thrown JavaScript exceptions are modelled with
`Except JsErr`.
-/

set_option maxRecDepth 4096

/-- Errors a parser call can surface.  `typeError` models a runtime
`TypeError` (e.g. dereferencing a property of `null`/`undefined`);
`jsonError` models the `SyntaxError` thrown by `JSON.parse` on invalid
input; `parseError` models the typed `ParseError` of the specification's
error taxonomy (the source never constructs one). -/
inductive JsErr
  | typeError
  | jsonError
  | parseError
deriving Repr, DecidableEq

deriving instance DecidableEq for Except

/-- JavaScript `s.split(sep)` with a non-empty string separator:
worker loop, structurally recursive on a fuel argument (every step consumes
at least one character, so fuel `l.length` is exact). -/
def splitGo (c : Char) (cs : List Char) : Nat → List Char → List (List Char)
  | _, [] => [[]]
  | 0, _ :: _ => [[]]
  | fuel + 1, a :: t =>
    if (c :: cs).isPrefixOf (a :: t) then
      [] :: splitGo c cs fuel (t.drop cs.length)
    else
      match splitGo c cs fuel t with
      | [] => [[a]]
      | g :: gs => (a :: g) :: gs

/-- JavaScript `s.split(sep)`.  For the empty separator JS splits into
single characters (never used by the source with a non-empty input). -/
def jsSplit (s sep : String) : List String :=
  match sep.data with
  | [] => s.data.map (fun a => String.mk [a])
  | c :: cs => (splitGo c cs s.data.length s.data).map String.mk

/-- JavaScript `s.split(/\r?\n/)` (used by the tag transform): a separator
is either CR-LF or a lone LF; a lone CR is ordinary text. -/
def splitCRLF : List Char → List (List Char)
  | [] => [[]]
  | '\r' :: '\n' :: t => [] :: splitCRLF t
  | '\n' :: t => [] :: splitCRLF t
  | a :: t =>
    match splitCRLF t with
    | [] => [[a]]
    | g :: gs => (a :: g) :: gs

/-- JavaScript `s.substring(0, n)` (and `substring(i, j)` building blocks):
take the first `n` characters. -/
def strTake (s : String) (n : Nat) : String := String.mk (s.data.take n)

/-- JavaScript `s.substring(n)`: drop the first `n` characters. -/
def strDrop (s : String) (n : Nat) : String := String.mk (s.data.drop n)

/-- JavaScript `s.substring(0, s.length - 1)`: drop the final character
(the empty string maps to itself, as `substring` clamps negative ends). -/
def strDropLast (s : String) : String := String.mk s.data.dropLast

/-- JavaScript `s.indexOf(c) > -1` for a single-character needle. -/
def strHasChar (s : String) (c : Char) : Bool := s.data.contains c

/-- Worker for `strContains`: does `pat` occur as a contiguous sublist? -/
def infixAux (pat : List Char) : List Char → Bool
  | [] => pat.isEmpty
  | a :: t => pat.isPrefixOf (a :: t) || infixAux pat t

/-- JavaScript `s.indexOf(pat) > -1`: substring containment. -/
def strContains (s pat : String) : Bool := infixAux pat.data s.data

/-- The whitespace class trimmed by JavaScript `String.prototype.trim`
(restricted to the ASCII characters that can occur in tool output). -/
def isJsWs (c : Char) : Bool :=
  c = ' ' || c = '\t' || c = '\n' || c = '\r' || c = '\x0b' || c = '\x0c'

/-- JavaScript `s.trim()`. -/
def jsTrim (s : String) : String :=
  String.mk (((s.data.dropWhile isJsWs).reverse.dropWhile isJsWs).reverse)

/-- JavaScript `s.replace(pat, rep)` with a *string* pattern: replace the
first occurrence only. -/
def replaceFirstL (l pat rep : List Char) : List Char :=
  match l with
  | [] => if pat = [] then rep else []
  | a :: t =>
    if pat.isPrefixOf l then rep ++ l.drop pat.length
    else a :: replaceFirstL t pat rep

/-- String wrapper for `replaceFirstL`. -/
def jsReplaceFirst (s pat rep : String) : String :=
  String.mk (replaceFirstL s.data pat.data rep.data)

/-! Model of the regex `/".*?": "(.*?)"[,}]/g` used by the log transform.
In JavaScript `.` matches any character except a line terminator, and
`.*?` is lazy: the engine tries the shortest expansion first, extending
one character at a time on failure.  The pattern decomposes as:
`"` , lazy body A, the literal `": "` followed by `"` , lazy capture B,
`"` , then `,` or `}`. -/

/-- Lazy search for the tail `(.*?)"[,}]` of the pattern: find the
shortest capture B such that the input continues with `"` and then `,` or
`}`.  Returns the capture, the closing `,`/`}` character, and the rest of
the input after the match. -/
def findB : List Char → Option (List Char × Char × List Char)
  | [] => none
  | a :: rest =>
    if a = '"' then
      match rest with
      | [] => none
      | c :: rest2 =>
        if c = ',' || c = '}' then some ([], c, rest2)
        else (findB rest).map
          (fun (p : List Char × Char × List Char) => (a :: p.1, p.2.1, p.2.2))
    else if a = '\n' || a = '\r' then none
    else (findB rest).map
      (fun (p : List Char × Char × List Char) => (a :: p.1, p.2.1, p.2.2))

/-- Lazy search for `.*?": "` followed by a successful `findB`: find the
shortest body A such that the literal `": "` plus opening `"` follows and
the value part matches.  Returns A, the capture B, the closing character
and the rest after the match. -/
def findA : List Char → Option (List Char × List Char × Char × List Char)
  | [] => none
  | a :: rest =>
    match
      (match a, rest with
       | '"', ':' :: ' ' :: '"' :: rest2 =>
         (findB rest2).map (fun p => (([] : List Char), p.1, p.2.1, p.2.2))
       | _, _ => none) with
    | some r => some r
    | none =>
      if a = '\n' || a = '\r' then none
      else (findA rest).map
        (fun (p : List Char × List Char × Char × List Char) =>
          (a :: p.1, p.2.1, p.2.2.1, p.2.2.2))

/-- Attempt to match the pattern at the start of the input.  Returns the
full matched substring, the capture, and the rest of the input. -/
def matchPatAt (l : List Char) : Option (List Char × List Char × List Char) :=
  match l with
  | '"' :: rest =>
    (findA rest).map (fun p =>
      ('"' :: p.1 ++ '"' :: ':' :: ' ' :: '"' :: p.2.1 ++ ['"', p.2.2.1],
       p.2.1, p.2.2.2))
  | _ => none

/-- `str.match(R)` with the global flag: all matches with their captures,
scanning left to right and resuming after each match.  Fuel-based (every
step consumes at least one character). -/
def matchAllF : Nat → List Char → List (List Char × List Char)
  | 0, _ => []
  | fuel + 1, l =>
    match matchPatAt l with
    | some (m, b, r) => (m, b) :: matchAllF fuel r
    | none =>
      match l with
      | [] => []
      | _ :: t => matchAllF fuel t

/-- All matches of the key-value regex in `l` (pairs of full match and
capture); `[]` plays the role of JavaScript's `null` result. -/
def kvMatches (l : List Char) : List (List Char × List Char) :=
  matchAllF (l.length + 1) l

/-- `str.replace(R, '$1')` with the global flag: every match replaced by
its capture, other characters copied.  Fuel-based like `matchAllF`. -/
def replAllF : Nat → List Char → List Char
  | 0, l => l
  | fuel + 1, l =>
    match matchPatAt l with
    | some (_, b, r) => b ++ replAllF fuel r
    | none =>
      match l with
      | [] => []
      | a :: t => a :: replAllF fuel t

/-- `str.replace(/".*?": "(.*?)"[,}]/g, '$1')`. -/
def kvReplaceAll (l : List Char) : List Char :=
  replAllF (l.length + 1) l

/-- `str.replace(/\"/g, '\\"')`: every `"` becomes the two characters
`\"` (the regex `/\"/` is just an escaped quote). -/
def escapeQuotes (l : List Char) : List Char :=
  l.foldr (fun c acc => (if c = '"' then ['\\', '"'] else [c]) ++ acc) []

/-- JSON values, the result type of `JSON.parse`. -/
inductive JVal
  | jnull
  | jbool (b : Bool)
  | jnum (n : Int)
  | jstr (s : String)
  | jarr (elems : List JVal)
  | jobj (fields : List (String × JVal))
deriving Repr

/-- JSON insignificant whitespace. -/
def skipWs : List Char → List Char
  | [] => []
  | c :: t =>
    if c = ' ' || c = '\t' || c = '\n' || c = '\r' then skipWs t else c :: t

/-- Value of a hexadecimal digit. -/
def hexVal (c : Char) : Option Nat :=
  if '0' ≤ c ∧ c ≤ '9' then some (c.toNat - 48)
  else if 'a' ≤ c ∧ c ≤ 'f' then some (c.toNat - 87)
  else if 'A' ≤ c ∧ c ≤ 'F' then some (c.toNat - 55)
  else none

/-- One-character JSON string escapes. -/
def escChar (e : Char) : Option Char :=
  if e = '"' then some '"'
  else if e = '\\' then some '\\'
  else if e = '/' then some '/'
  else if e = 'b' then some '\x08'
  else if e = 'f' then some '\x0c'
  else if e = 'n' then some '\n'
  else if e = 'r' then some '\r'
  else if e = 't' then some '\t'
  else none

/-- Body of a JSON string after the opening quote: content up to the
closing quote, handling escapes; raw control characters are rejected as
`JSON.parse` does. -/
def parseStrBody : List Char → Option (List Char × List Char)
  | [] => none
  | '"' :: t => some ([], t)
  | '\\' :: 'u' :: h1 :: h2 :: h3 :: h4 :: t =>
    match hexVal h1, hexVal h2, hexVal h3, hexVal h4 with
    | some a, some b, some c, some d =>
      (parseStrBody t).map
        (fun p => (Char.ofNat (((a * 16 + b) * 16 + c) * 16 + d) :: p.1, p.2))
    | _, _, _, _ => none
  | '\\' :: e :: t =>
    match escChar e with
    | some ch => (parseStrBody t).map (fun p => (ch :: p.1, p.2))
    | none => none
  | c :: t =>
    if c.toNat < 32 then none
    else (parseStrBody t).map (fun p => (c :: p.1, p.2))

/-- Digit string to a natural number. -/
def natOfDigits (ds : List Char) : Nat :=
  ds.foldl (fun acc c => acc * 10 + (c.toNat - 48)) 0

/-- A JSON integer literal (the log records contain only strings, so
fractions and exponents are not modelled; inputs using them fail). -/
def parseNum (l : List Char) : Option (Int × List Char) :=
  match l with
  | '-' :: t =>
    let p := t.span Char.isDigit
    if p.1.isEmpty then none else some (-(natOfDigits p.1 : Int), p.2)
  | _ =>
    let p := l.span Char.isDigit
    if p.1.isEmpty then none else some ((natOfDigits p.1 : Int), p.2)

mutual

/-- A JSON value (fuel-based mutual recursion; fuel decreases on every
nested parse and at least one character is consumed per two fuel units,
so `2 * length + 2` fuel is always enough). -/
def parseVal : Nat → List Char → Option (JVal × List Char)
  | 0, _ => none
  | fuel + 1, l =>
    match skipWs l with
    | [] => none
    | '"' :: t => (parseStrBody t).map (fun p => (JVal.jstr (String.mk p.1), p.2))
    | '[' :: t =>
      match skipWs t with
      | ']' :: t2 => some (JVal.jarr [], t2)
      | t2 => (parseElems fuel t2).map (fun p => (JVal.jarr p.1, p.2))
    | '{' :: t =>
      match skipWs t with
      | '}' :: t2 => some (JVal.jobj [], t2)
      | t2 => (parseFields fuel t2).map (fun p => (JVal.jobj p.1, p.2))
    | 't' :: 'r' :: 'u' :: 'e' :: t => some (JVal.jbool true, t)
    | 'f' :: 'a' :: 'l' :: 's' :: 'e' :: t => some (JVal.jbool false, t)
    | 'n' :: 'u' :: 'l' :: 'l' :: t => some (JVal.jnull, t)
    | l2 => (parseNum l2).map (fun p => (JVal.jnum p.1, p.2))

/-- Comma-separated array elements up to the closing `]`. -/
def parseElems : Nat → List Char → Option (List JVal × List Char)
  | 0, _ => none
  | fuel + 1, l => do
    let (v, rest) ← parseVal fuel l
    match skipWs rest with
    | ',' :: t => (parseElems fuel t).map (fun p => (v :: p.1, p.2))
    | ']' :: t => some ([v], t)
    | _ => none

/-- Comma-separated object members up to the closing `}`. -/
def parseFields : Nat → List Char → Option (List (String × JVal) × List Char)
  | 0, _ => none
  | fuel + 1, l =>
    match skipWs l with
    | '"' :: t => do
      let (k, rest) ← parseStrBody t
      match skipWs rest with
      | ':' :: t2 => do
        let (v, rest2) ← parseVal fuel t2
        match skipWs rest2 with
        | ',' :: t3 => (parseFields fuel t3).map (fun p => ((String.mk k, v) :: p.1, p.2))
        | '}' :: t3 => some ([(String.mk k, v)], t3)
        | _ => none
      | _ => none
    | _ => none

end

/-- `JSON.parse`: a single JSON value followed only by whitespace;
anything else throws a `SyntaxError` (modelled as `JsErr.jsonError`). -/
def jsonParse (l : List Char) : Except JsErr JVal :=
  match parseVal (2 * l.length + 2) l with
  | some (v, rest) =>
    match skipWs rest with
    | [] => Except.ok v
    | _ => Except.error JsErr.jsonError
  | none => Except.error JsErr.jsonError

namespace parsers

/-- One line of porcelain status output, as produced by `parsers.status`:
the file path and the verbatim two-column status code. -/
structure StatusEntry where
  file : String
  status : String
deriving Repr, DecidableEq

/-- The three buckets returned by `parsers.status`. -/
structure GitStatus where
  staged : List StatusEntry
  unstaged : List StatusEntry
  untracked : List StatusEntry
deriving Repr, DecidableEq

/-- Body of the `forEach` in `parsers.status`: route one pre-split line
(`line[0]` is `s.substring(0,2)`, `line[1]` is `s.substring(3)`) into a
bucket.  An empty status code (empty line) is skipped. -/
def statusStep (st : GitStatus) (line : String × String) : GitStatus :=
  let fileStatus := line.1
  let fileName := line.2
  if fileStatus = "" then st
  else if strTake fileStatus 2 = "??" then
    { st with untracked := st.untracked ++ [⟨fileName, fileStatus⟩] }
  else if strTake fileStatus 1 = "A" then
    { st with staged := st.staged ++ [⟨fileName, fileStatus⟩] }
  else
    { st with unstaged := st.unstaged ++ [⟨fileName, fileStatus⟩] }

/-- `parsers.status` from the source: split on `\n`, map each line to the
pair `(substring(0,2), substring(3))`, then route every pair. -/
def status (gitstatus : String) : GitStatus :=
  let output := (jsSplit gitstatus "\n").map (fun s => (strTake s 2, strDrop s 3))
  output.foldl statusStep { staged := [], unstaged := [], untracked := [] }

/-- The entry a raw status line turns into (used to state properties of
`status`): the path after column 3 and the two-column code. -/
def statusEntryOf (l : String) : StatusEntry := ⟨strDrop l 3, strTake l 2⟩

/-- Result of `parsers.branch`: the current branch (`null` initially,
hence an `Option`) and the remaining branch names. -/
structure BranchTree where
  current : Option String
  others : List String
deriving Repr, DecidableEq

/-- Body of the `forEach` in `parsers.branch`: a line containing `*` sets
`current` (first `*` removed, then trimmed); any other non-empty line is
trimmed and appended to `others`. -/
def branchStep (tree : BranchTree) (val : String) : BranchTree :=
  if strHasChar val '*' then
    { tree with current := some (jsTrim (jsReplaceFirst val "*" "")) }
  else if val ≠ "" then
    { tree with others := tree.others ++ [jsTrim val] }
  else tree

/-- `parsers.branch` from the source. -/
def branch (output : String) : BranchTree :=
  (jsSplit output "\n").foldl branchStep { current := none, others := [] }

/-- The in-place removal loop shared by `parsers.tag` and
`parsers.syncErr`: `for (i = 0; i < a.length; i++) if (!a[i].length)
a.splice(i, 1);` — note `i` still advances after a removal.  Fuel-based
(each step advances `i`, so `a.length + 1` steps suffice). -/
def spliceGo : Nat → List String → Nat → List String
  | 0, l, _ => l
  | fuel + 1, l, i =>
    if h : i < l.length then
      if (l.get ⟨i, h⟩).length = 0 then spliceGo fuel (l.eraseIdx i) (i + 1)
      else spliceGo fuel l (i + 1)
    else l

/-- `parsers.tag` from the source: split on `/\r?\n/`, then the in-place
empty-entry removal loop. -/
def tag (output : String) : List String :=
  let tags := (splitCRLF output.data).map String.mk
  spliceGo (tags.length + 1) tags 0

/-- `parsers.syncErr` from the source: split on `'\r\n'`, then the same
in-place removal loop. -/
def syncErr (output : String) : List String :=
  let result := jsSplit output "\r\n"
  spliceGo (result.length + 1) result 0

/-- `parsers.syncSuccess` from the source: identity. -/
def syncSuccess (output : String) : String := output

/-- JavaScript object property assignment `obj[k] = v` for a string-keyed
map modelled as an insertion-ordered association list: an existing key is
overwritten in place, a new key is appended. -/
def jsObjSet : List (String × String) → String → String → List (String × String)
  | [], k, v => [(k, v)]
  | (k0, v0) :: t, k, v =>
    if k0 = k then (k0, v) :: t else (k0, v0) :: jsObjSet t k v

/-- Body of the `forEach` in `parsers.remotes`.  A line whose first
tab-field is truthy (non-empty) stores `val.split('\t')[1].split(' ')[0]`
under that field; when the line has no tab, `val.split('\t')[1]` is
`undefined` and calling `.split` on it throws a `TypeError`. -/
def remotesStep (list : List (String × String)) (val : String) :
    Except JsErr (List (String × String)) :=
  let fields := jsSplit val "\t"
  if fields.headD "" ≠ "" then
    match fields[1]? with
    | none => Except.error JsErr.typeError
    | some second =>
      Except.ok (jsObjSet list (fields.headD "") ((jsSplit second " ").headD ""))
  else Except.ok list

/-- `parsers.remotes` from the source: fold the per-line step over the
lines; a thrown `TypeError` aborts the iteration. -/
def remotes (output : String) : Except JsErr (List (String × String)) :=
  (jsSplit output "\n").foldlM remotesStep []

/-- The chars (possibly none) strictly before the next `]`, or `none` when
no `]` follows — the greedy `[^\]]+` body of the regex `/\[([^\]]+)]/`. -/
def takeUntilRB : List Char → Option (List Char)
  | [] => none
  | c :: rest => if c = ']' then some [] else (takeUntilRB rest).map (c :: ·)

/-- First match of `/\[([^\]]+)]/g` (the source only uses `match(...)[0]`):
scan for the leftmost `[` followed by at least one non-`]` character and a
closing `]`; return the full matched substring `[...]`. -/
def bracketAux : List Char → Option (List Char)
  | [] => none
  | a :: t =>
    if a = '[' then
      match takeUntilRB t with
      | some content =>
        if content.isEmpty then bracketAux t
        else some ('[' :: (content ++ [']']))
      | none => bracketAux t
    else bracketAux t

/-- String wrapper for `bracketAux`: `line.match(/\[([^\]]+)]/g)` and the
`[0]` access, as an `Option`. -/
def bracketFirstMatch (s : String) : Option String :=
  (bracketAux s.data).map String.mk

/-- Result of `parsers.commit`: the rejection path returns `{error: ...}`
(the error value is `undefined`, i.e. `none`, when every line contains
`#`); the success path returns branch, hash, changed-count string and the
remaining lines.  The `commit` field is an `Option` because
`hash.split(' ')[1]` is `undefined` when the bracket content has no
space. -/
inductive CommitResult
  | rejected (error : Option String)
  | committed (branch : String) (commit : Option String)
      (changed : String) (operations : List String)
deriving Repr, DecidableEq

/-- `parsers.commit` from the source.  The rejection branch never throws;
the success branch throws a `TypeError` when line 0 has no bracketed token
(`match` returns `null` and `null[0]` is dereferenced) or when the input
has no line 1 (`undefined.split` is called).  The source's
`output.split(...) || [..]` fallback is dead code (an array is always
truthy) and is not modelled. -/
def commit (output : String) : Except JsErr CommitResult :=
  if strContains output "nothing to commit" ||
      strContains output "no changes added to commit" then
    Except.ok (CommitResult.rejected
      ((jsSplit output "\n").find? (fun l => !(strHasChar l '#'))))
  else
    let splitOutput := jsSplit output "\n"
    match bracketFirstMatch (splitOutput.headD "") with
    | none => Except.error JsErr.typeError
    | some branchAndHash =>
      let inner := strTake (strDrop branchAndHash 1) (branchAndHash.data.length - 2)
      let branchStr := inner
      let hashStr := inner
      match splitOutput[1]? with
      | none => Except.error JsErr.typeError
      | some line1 =>
        let filesChanged := (jsSplit line1 " ").headD ""
        let operations := splitOutput.drop 2
        Except.ok (CommitResult.committed
          ((jsSplit branchStr " ").headD "")
          ((jsSplit hashStr " ")[1]?)
          filesChanged operations)

/-- `parsers.log` from the source: wrap the input minus its final
character in `[` `]`; collect every match of the key-value regex; for each
match from last to first, compute its capture (`replace(R, '$1')`), escape
the quotes in it, and substitute the escaped form for the first occurrence
of the raw capture in the accumulated text; finally `JSON.parse` the
result.  (When `match` returns `null` the loop body is skipped, which
coincides with folding over an empty match list.) -/
def log (output : String) : Except JsErr JVal :=
  let log0 : List Char := '[' :: ((strDropLast output).data ++ [']'])
  let h := kvMatches log0
  let repaired := h.reverse.foldl
    (fun lg m =>
      let hh := kvReplaceAll m.1
      let hhh := escapeQuotes hh
      replaceFirstL lg hh hhh)
    log0
  jsonParse repaired

end parsers

/-! ### Helper lemmas -/

theorem strTake_strTake (s : String) (n m : Nat) :
    strTake (strTake s n) m = strTake s (min m n) := by
  simp [strTake, List.take_take]

theorem strTake_eq_empty_iff (s : String) (n : Nat) :
    strTake s n = "" ↔ n = 0 ∨ s = "" := by
  cases s with
  | mk data =>
    unfold strTake
    constructor
    · intro h
      have hd : data.take n = [] := congrArg String.data h
      rcases List.take_eq_nil_iff.mp hd with h0 | hnil
      · exact Or.inl h0
      · exact Or.inr (congrArg String.mk hnil)
    · intro h
      rcases h with h0 | hs
      · subst h0
        show String.mk [] = ""
        rfl
      · have hd : data = [] := congrArg String.data hs
        subst hd
        rw [List.take_nil]

theorem strTake_two_take_two (l : String) : strTake (strTake l 2) 2 = strTake l 2 := by
  rw [strTake_strTake]
  norm_num

theorem strTake_two_take_one (l : String) : strTake (strTake l 2) 1 = strTake l 1 := by
  rw [strTake_strTake]
  norm_num

theorem strTake_one_of_qq (l : String) (h : strTake l 2 = "??") : strTake l 1 = "?" := by
  rw [← strTake_two_take_one, h]
  rfl

theorem exceptBind_ok {ε α β : Type} (a : α) (f : α → Except ε β) :
    (Except.ok a : Except ε α) >>= f = f a := rfl

theorem exceptBind_error {ε α β : Type} (e : ε) (f : α → Except ε β) :
    (Except.error e : Except ε α) >>= f = Except.error e := rfl

/-! ### Status transform: partition of non-empty lines (C4) -/

theorem statusStep_cases (acc : parsers.GitStatus) (l : String) :
    parsers.statusStep acc (strTake l 2, strDrop l 3)
      = { staged := acc.staged ++
            (if strTake l 1 = "A" then [parsers.statusEntryOf l] else []),
          unstaged := acc.unstaged ++
            (if l ≠ "" ∧ strTake l 2 ≠ "??" ∧ strTake l 1 ≠ "A"
              then [parsers.statusEntryOf l] else []),
          untracked := acc.untracked ++
            (if strTake l 2 = "??" then [parsers.statusEntryOf l] else []) } := by
  have hfs2 : strTake (strTake l 2) 2 = strTake l 2 := strTake_two_take_two l
  have hfs1 : strTake (strTake l 2) 1 = strTake l 1 := strTake_two_take_one l
  by_cases he : l = ""
  · subst he
    have h2 : strTake "" 2 = "" := by decide
    have ha : ¬ strTake "" 1 = "A" := by decide
    have hq : ¬ strTake "" 2 = "??" := by decide
    simp [parsers.statusStep, parsers.statusEntryOf, h2, ha, hq]
  · have hfs : ¬ strTake l 2 = "" := by
      intro h
      rcases (strTake_eq_empty_iff l 2).mp h with h0 | hs
      · exact absurd h0 (by norm_num)
      · exact he hs
    by_cases hq : strTake l 2 = "??"
    · have h1 : strTake l 1 = "?" := strTake_one_of_qq l hq
      have ha : ¬ strTake l 1 = "A" := by rw [h1]; decide
      have d1 : strTake "??" 2 = "??" := by decide
      have d2 : strTake "??" 1 = "?" := by decide
      have d3 : ¬ ("?" : String) = "A" := by decide
      simp [parsers.statusStep, parsers.statusEntryOf, hfs, hfs2, hq, ha, h1,
        d1, d2, d3]
    · by_cases ha : strTake l 1 = "A"
      · simp [parsers.statusStep, parsers.statusEntryOf, hfs, hfs2, hfs1, hq, ha]
      · simp [parsers.statusStep, parsers.statusEntryOf, hfs, hfs2, hfs1, hq, ha, he]

theorem status_foldl (ls : List String) (acc : parsers.GitStatus) :
    (ls.map (fun s => (strTake s 2, strDrop s 3))).foldl parsers.statusStep acc
      = { staged := acc.staged ++
            (ls.filter (fun l => decide (strTake l 1 = "A"))).map parsers.statusEntryOf,
          unstaged := acc.unstaged ++
            (ls.filter (fun l =>
              decide (l ≠ "" ∧ strTake l 2 ≠ "??" ∧ strTake l 1 ≠ "A"))).map
              parsers.statusEntryOf,
          untracked := acc.untracked ++
            (ls.filter (fun l => decide (strTake l 2 = "??"))).map
              parsers.statusEntryOf } := by
  induction ls generalizing acc with
  | nil => simp
  | cons l t ih =>
    rw [List.map_cons, List.foldl_cons, statusStep_cases, ih]
    simp only [List.filter_cons, parsers.GitStatus.mk.injEq]
    refine ⟨?_, ?_, ?_⟩
    · by_cases hp : strTake l 1 = "A" <;> simp [hp, List.append_assoc]
    · by_cases hp : l ≠ "" ∧ strTake l 2 ≠ "??" ∧ strTake l 1 ≠ "A" <;>
        simp [hp, List.append_assoc]
    · by_cases hp : strTake l 2 = "??" <;> simp [hp, List.append_assoc]

theorem status_spec (s : String) :
    parsers.status s
      = { staged := ((jsSplit s "\n").filter
            (fun l => decide (strTake l 1 = "A"))).map parsers.statusEntryOf,
          unstaged := ((jsSplit s "\n").filter (fun l =>
            decide (l ≠ "" ∧ strTake l 2 ≠ "??" ∧ strTake l 1 ≠ "A"))).map
            parsers.statusEntryOf,
          untracked := ((jsSplit s "\n").filter
            (fun l => decide (strTake l 2 = "??"))).map parsers.statusEntryOf } := by
  unfold parsers.status
  rw [status_foldl]
  simp

theorem status_count (ls : List String) :
    (ls.filter (fun l => decide (strTake l 1 = "A"))).length
      + (ls.filter (fun l =>
          decide (l ≠ "" ∧ strTake l 2 ≠ "??" ∧ strTake l 1 ≠ "A"))).length
      + (ls.filter (fun l => decide (strTake l 2 = "??"))).length
    = (ls.filter (fun l => decide (l ≠ ""))).length := by
  induction ls with
  | nil => rfl
  | cons l t ih =>
    simp only [List.filter_cons]
    by_cases he : l = ""
    · subst he
      have ha : ¬ strTake "" 1 = "A" := by decide
      have hq : ¬ strTake "" 2 = "??" := by decide
      simp [ha, hq] at ih ⊢
      omega
    · by_cases hq : strTake l 2 = "??"
      · have ha : ¬ strTake l 1 = "A" := by rw [strTake_one_of_qq l hq]; decide
        have d3 : ¬ ("??" : String) = "A":= by decide
        simp [he, hq, ha, d3] at ih ⊢
        omega
      · by_cases ha : strTake l 1 = "A"
        · simp [he, hq, ha] at ih ⊢
          omega
        · simp [he, hq, ha] at ih ⊢
          omega

/-! ### Branch transform (C8) -/

theorem branch_fold_nostar (ls : List String) (acc : parsers.BranchTree)
    (h : ∀ l ∈ ls, strHasChar l '*' = false) :
    ls.foldl parsers.branchStep acc
      = { current := acc.current,
          others := acc.others ++ (ls.filter (fun l => decide (l ≠ ""))).map jsTrim } := by
  induction ls generalizing acc with
  | nil => simp
  | cons l t ih =>
    have hl : strHasChar l '*' = false := h l (List.mem_cons_self l t)
    rw [List.foldl_cons, ih _ (fun x hx => h x (List.mem_cons_of_mem l hx)),
      List.filter_cons]
    by_cases he : l = ""
    · subst he
      simp [parsers.branchStep, hl]
    · simp [parsers.branchStep, hl, he, List.append_assoc]

/-- C8: on branch-list input with exactly one `*`-marked line, `current`
is that line with the (first) `*` removed and trimmed, the marked line
contributes nothing to `others`, and every other non-empty line appears
trimmed in `others` in input order. -/
theorem branch_single_star (s : String) (pre post : List String) (c : String)
    (hsplit : jsSplit s "\n" = pre ++ c :: post)
    (hc : strHasChar c '*' = true)
    (hpre : ∀ l ∈ pre, strHasChar l '*' = false)
    (hpost : ∀ l ∈ post, strHasChar l '*' = false) :
    parsers.branch s
      = { current := some (jsTrim (jsReplaceFirst c "*" "")),
          others := ((pre ++ post).filter (fun l => decide (l ≠ ""))).map jsTrim } := by
  unfold parsers.branch
  rw [hsplit, List.foldl_append, List.foldl_cons,
    branch_fold_nostar pre _ hpre, branch_fold_nostar post _ hpost]
  simp [parsers.branchStep, hc, List.filter_append]

/-- Witness for `branch_single_star` at a concrete three-line input. -/
theorem branch_single_star_witness :
    parsers.branch "  dev\n* main\nfeature"
      = { current := some "main", others := ["dev", "feature"] } := by
  rw [branch_single_star "  dev\n* main\nfeature" ["  dev"] ["feature"] "* main"
    (by decide) (by decide) (by decide) (by decide)]
  decide

/-! ### Commit transform (C6, C7, C1) -/

/-- C6: whenever the input contains one of the rejection phrases, the
commit transform returns the normal value `{error: L}` with `L` the first
line not containing `#` (`none` when every line contains `#`); this path
never throws. -/
theorem commit_rejection (s : String)
    (h : strContains s "nothing to commit" = true ∨
         strContains s "no changes added to commit" = true) :
    parsers.commit s
      = Except.ok (parsers.CommitResult.rejected
          ((jsSplit s "\n").find? (fun l => !(strHasChar l '#')))) := by
  unfold parsers.commit
  rcases h with h | h <;> simp [h]

/-- Witness for `commit_rejection`: the spec's rejection example. -/
theorem commit_rejection_witness :
    parsers.commit "# On branch main\nnothing to commit, working tree clean"
      = Except.ok (parsers.CommitResult.rejected
          (some "nothing to commit, working tree clean")) := by
  rw [commit_rejection _ (Or.inl (by decide))]
  decide

/-- C7 (amended): on non-rejection input whose line 0 has no bracketed
token, the commit transform fails — but with a runtime `TypeError` (the
`null` result of `match` is dereferenced), not the typed `ParseError`. -/
theorem commit_no_bracket_typeError (s : String)
    (h1 : strContains s "nothing to commit" = false)
    (h2 : strContains s "no changes added to commit" = false)
    (hbr : parsers.bracketFirstMatch ((jsSplit s "\n").headD "") = none) :
    parsers.commit s = Except.error JsErr.typeError := by
  unfold parsers.commit
  rw [List.headD_eq_head?] at hbr
  simp [h1, h2, hbr]

/-- C7 counterexample: on `"garbage"` (no rejection phrase, no bracketed
token) the commit transform's failure is the runtime `TypeError`, which is
not the typed `ParseError` the claim names. -/
theorem commit_no_bracket_counterexample :
    parsers.commit "garbage" = Except.error JsErr.typeError
      ∧ (Except.error JsErr.typeError : Except JsErr parsers.CommitResult)
          ≠ Except.error JsErr.parseError := by
  decide

/-- Witness for `commit_no_bracket_typeError` at a concrete input. -/
theorem commit_no_bracket_witness :
    parsers.commit "zzz output" = Except.error JsErr.typeError :=
  commit_no_bracket_typeError "zzz output" (by decide) (by decide) (by decide)

/-- C1 counterexample: on the spec's commit-success example the transform
does not produce the claimed record (`changed` is `""`, not `"1"`, because
line 1 begins with a space and `split(' ')[0]` is the empty field; and
`operations` holds only the lines from index 2 onward). -/
theorem commit_example_counterexample :
    parsers.commit "[main abc1234] msg\n 1 file changed, 2 insertions(+)\n create mode foo.txt"
      ≠ Except.ok (parsers.CommitResult.committed "main" (some "abc1234") "1"
          [" 1 file changed, 2 insertions(+)", " create mode foo.txt"]) := by
  decide

/-- C1 (amended): on the spec's commit-success example the transform
returns branch `"main"`, commit `"abc1234"`, `changed` the empty string
(line 1's first space-split field), and `operations` the lines from index
2 onward only. -/
theorem commit_example_value :
    parsers.commit "[main abc1234] msg\n 1 file changed, 2 insertions(+)\n create mode foo.txt"
      = Except.ok (parsers.CommitResult.committed "main" (some "abc1234") ""
          [" create mode foo.txt"]) := by
  decide

/-! ### Remotes transform (C9, C10) -/

theorem jsObjSet_lookup_self (l : List (String × String)) (k v : String) :
    List.lookup k (parsers.jsObjSet l k v) = some v := by
  induction l with
  | nil => simp [parsers.jsObjSet, List.lookup]
  | cons p t ih =>
    obtain ⟨k0, v0⟩ := p
    by_cases hk : k0 = k
    · subst hk
      simp [parsers.jsObjSet, List.lookup]
    · have hbeq : (k == k0) = false := beq_eq_false_iff_ne.mpr (Ne.symm hk)
      simp [parsers.jsObjSet, hk, List.lookup, hbeq, ih]

theorem jsObjSet_lookup_ne (l : List (String × String)) (k k2 v : String)
    (h : k2 ≠ k) :
    List.lookup k2 (parsers.jsObjSet l k v) = List.lookup k2 l := by
  induction l with
  | nil =>
    simp [parsers.jsObjSet, List.lookup, beq_eq_false_iff_ne.mpr h]
  | cons p t ih =>
    obtain ⟨k0, v0⟩ := p
    by_cases hk : k0 = k
    · subst hk
      simp [parsers.jsObjSet, List.lookup, beq_eq_false_iff_ne.mpr h]
    · simp only [parsers.jsObjSet, if_neg hk]
      cases hbeq : k2 == k0 <;> simp [List.lookup, hbeq, ih]

theorem remotesStep_error_is_typeError (acc : List (String × String))
    (l : String) (e : JsErr)
    (h : parsers.remotesStep acc l = Except.error e) : e = JsErr.typeError := by
  simp only [parsers.remotesStep] at h
  by_cases hc : (jsSplit l "\t").headD "" ≠ ""
  · rw [if_pos hc] at h
    cases hm : (jsSplit l "\t")[1]? with
    | none =>
      rw [hm] at h
      injection h with h2
      exact h2.symm
    | some second =>
      rw [hm] at h
      exact Except.noConfusion h
  · rw [if_neg hc] at h
    exact Except.noConfusion h

theorem remotesStep_preserves_lookup (acc acc2 : List (String × String))
    (l name : String)
    (hok : parsers.remotesStep acc l = Except.ok acc2)
    (hname : (jsSplit l "\t").headD "" ≠ name) :
    List.lookup name acc2 = List.lookup name acc := by
  simp only [parsers.remotesStep] at hok
  by_cases hc : (jsSplit l "\t").headD "" ≠ ""
  · rw [if_pos hc] at hok
    cases hm : (jsSplit l "\t")[1]? with
    | none =>
      rw [hm] at hok
      exact Except.noConfusion hok
    | some second =>
      rw [hm] at hok
      injection hok with h2
      rw [← h2, jsObjSet_lookup_ne _ _ _ _ (Ne.symm hname)]
  · rw [if_neg hc] at hok
    injection hok with h2
    rw [← h2]

theorem remotes_fold_preserves_lookup (post : List String) (name : String) :
    ∀ (acc m : List (String × String)),
      (∀ l ∈ post, (jsSplit l "\t").headD "" ≠ name) →
      List.foldlM parsers.remotesStep acc post = Except.ok m →
      List.lookup name m = List.lookup name acc := by
  induction post with
  | nil =>
    intro acc m _ h
    simp only [List.foldlM_nil] at h
    injection h with h2
    rw [h2]
  | cons l t ih =>
    intro acc m hpost hfold
    rw [List.foldlM_cons] at hfold
    cases hstep : parsers.remotesStep acc l with
    | error e =>
      rw [hstep, exceptBind_error] at hfold
      exact Except.noConfusion hfold
    | ok acc2 =>
      rw [hstep, exceptBind_ok] at hfold
      rw [ih acc2 m (fun x hx => hpost x (List.mem_cons_of_mem l hx)) hfold,
        remotesStep_preserves_lookup acc acc2 l name hstep
          (hpost l (List.mem_cons_self l t))]

/-- C9: when the remote-listing input holds an earlier line and a later
line with the same non-empty tab-separated name and different URLs, and no
line after the later one rebinds that name, a successful parse binds the
name to the later line's URL (last write wins). -/
theorem remotes_last_write_wins (s name u1 u2 r1 r2 l1 l2 : String)
    (pre post : List String) (m : List (String × String))
    (hsplit : jsSplit s "\n" = pre ++ l2 :: post)
    (hl1mem : l1 ∈ pre)
    (hname : name ≠ "")
    (hl1a : (jsSplit l1 "\t").headD "" = name)
    (hl1b : (jsSplit l1 "\t")[1]? = some r1)
    (hl1u : (jsSplit r1 " ").headD "" = u1)
    (hl2a : (jsSplit l2 "\t").headD "" = name)
    (hl2b : (jsSplit l2 "\t")[1]? = some r2)
    (hl2u : (jsSplit r2 " ").headD "" = u2)
    (hdiff : u1 ≠ u2)
    (hpost : ∀ l ∈ post, (jsSplit l "\t").headD "" ≠ name)
    (hok : parsers.remotes s = Except.ok m) :
    List.lookup name m = some u2 := by
  unfold parsers.remotes at hok
  rw [hsplit, List.foldlM_append] at hok
  cases hpre : List.foldlM parsers.remotesStep [] pre with
  | error e =>
    rw [hpre, exceptBind_error] at hok
    exact Except.noConfusion hok
  | ok mpre =>
    rw [hpre, exceptBind_ok, List.foldlM_cons] at hok
    have hstep : parsers.remotesStep mpre l2
        = Except.ok (parsers.jsObjSet mpre name u2) := by
      simp only [parsers.remotesStep]
      rw [hl2a, if_pos hname, hl2b]
      show Except.ok (parsers.jsObjSet mpre name ((jsSplit r2 " ").headD ""))
        = Except.ok (parsers.jsObjSet mpre name u2)
      rw [hl2u]
    rw [hstep, exceptBind_ok] at hok
    rw [remotes_fold_preserves_lookup post name _ m hpost hok,
      jsObjSet_lookup_self]

/-- Witness for `remotes_last_write_wins`: two `origin` lines, the push
URL (the later line) wins. -/
theorem remotes_last_write_wins_witness :
    List.lookup "origin" [("origin", "git://b")] = some "git://b" :=
  remotes_last_write_wins
    "origin\tgit://a (fetch)\norigin\tgit://b (push)"
    "origin" "git://a" "git://b" "git://a (fetch)" "git://b (push)"
    "origin\tgit://a (fetch)" "origin\tgit://b (push)"
    ["origin\tgit://a (fetch)"] [] [("origin", "git://b")]
    (by decide) (by decide) (by decide) (by decide) (by decide) (by decide)
    (by decide) (by decide) (by decide) (by decide) (by decide) (by decide)

/-- C4: the status transform routes every non-empty line into exactly one
bucket — untracked when its first two characters are `??`, staged when its
first character is `A`, unstaged otherwise — and the bucket sizes sum to
the number of non-empty input lines. -/
theorem status_buckets_partition (s : String) :
    parsers.status s
      = { staged := ((jsSplit s "\n").filter
            (fun l => decide (strTake l 1 = "A"))).map parsers.statusEntryOf,
          unstaged := ((jsSplit s "\n").filter (fun l =>
            decide (l ≠ "" ∧ strTake l 2 ≠ "??" ∧ strTake l 1 ≠ "A"))).map
            parsers.statusEntryOf,
          untracked := ((jsSplit s "\n").filter
            (fun l => decide (strTake l 2 = "??"))).map parsers.statusEntryOf }
    ∧ (parsers.status s).staged.length + (parsers.status s).unstaged.length
        + (parsers.status s).untracked.length
      = ((jsSplit s "\n").filter (fun l => decide (l ≠ ""))).length := by
  refine ⟨status_spec s, ?_⟩
  rw [status_spec s]
  simp only [List.length_map]
  exact status_count (jsSplit s "\n")

/-! ### No-tab remote lines throw (C10) -/

theorem splitGo_not_mem (c : Char) (l : List Char) (fuel : Nat)
    (hc : l.contains c = false) (hf : l.length ≤ fuel) :
    splitGo c [] fuel l = [l] := by
  induction l generalizing fuel with
  | nil => cases fuel <;> rfl
  | cons a t ih =>
    cases fuel with
    | zero => simp at hf
    | succ f =>
      simp only [List.contains_cons, Bool.or_eq_false_iff, beq_eq_false_iff_ne] at hc
      show splitGo c [] (f + 1) (a :: t) = [a :: t]
      simp only [splitGo, List.isPrefixOf, Bool.and_true,
        beq_eq_false_iff_ne.mpr hc.1]
      rw [if_neg (by simp), ih f hc.2 (by simpa using Nat.le_of_succ_le_succ hf)]

theorem jsSplit_no_tab (l : String) (hnt : strHasChar l '\t' = false) :
    jsSplit l "\t" = [l] := by
  have h1 : jsSplit l "\t" = (splitGo '\t' [] l.data.length l.data).map String.mk := rfl
  rw [h1, splitGo_not_mem '\t' l.data l.data.length hnt (Nat.le_refl _)]
  rfl

theorem remotesStep_no_tab (acc : List (String × String)) (l : String)
    (hne : l ≠ "") (hnt : strHasChar l '\t' = false) :
    parsers.remotesStep acc l = Except.error JsErr.typeError := by
  simp only [parsers.remotesStep]
  rw [jsSplit_no_tab l hnt]
  simp [hne]

theorem remotes_fold_error (ls : List String) :
    ∀ acc : List (String × String),
      (∃ l ∈ ls, l ≠ "" ∧ strHasChar l '\t' = false) →
      List.foldlM parsers.remotesStep acc ls = Except.error JsErr.typeError := by
  induction ls with
  | nil =>
    intro acc h
    rcases h with ⟨l, hl, _⟩
    exact absurd hl (List.not_mem_nil l)
  | cons a t ih =>
    intro acc h
    rw [List.foldlM_cons]
    rcases h with ⟨l, hl, hprop⟩
    rcases List.mem_cons.mp hl with rfl | hlt
    · rw [remotesStep_no_tab acc l hprop.1 hprop.2, exceptBind_error]
    · cases hstep : parsers.remotesStep acc a with
      | error e =>
        rw [exceptBind_error, remotesStep_error_is_typeError acc a e hstep]
      | ok acc2 =>
        rw [exceptBind_ok]
        exact ih acc2 ⟨l, hlt, hprop⟩

/-- C10: a remote-listing input with a non-empty line that has no tab
character makes the remotes transform throw a runtime `TypeError`
(`undefined.split` on the missing second tab field) — it neither skips the
line nor raises a typed `ParseError`. -/
theorem remotes_no_tab_typeError (s l : String)
    (hmem : l ∈ jsSplit s "\n") (hne : l ≠ "")
    (hnt : strHasChar l '\t' = false) :
    parsers.remotes s = Except.error JsErr.typeError := by
  unfold parsers.remotes
  exact remotes_fold_error (jsSplit s "\n") [] ⟨l, hmem, hne, hnt⟩

/-- Witness for `remotes_no_tab_typeError` at a concrete input. -/
theorem remotes_no_tab_typeError_witness :
    parsers.remotes "foo" = Except.error JsErr.typeError :=
  remotes_no_tab_typeError "foo" "foo" (by decide) (by decide) (by decide)

/-! ### Tag / sync-error transforms keep an empty entry (C2) -/

/-- C2 evidence: the forward in-place removal loop skips the element after
each removal, so consecutive empty lines leave an empty string in the
output of both the tag and the sync-error transforms (the non-empty lines
do stay in order). -/
theorem tag_syncErr_keep_empty_entry :
    parsers.tag "a\n\n\nb" = ["a", "", "b"]
      ∧ parsers.syncErr "a\r\n\r\n\r\nb" = ["a", "", "b"]
      ∧ "" ∈ parsers.tag "a\n\n\nb" := by
  decide

/-! ### Log transform (C3, C5) -/

/-- C3 counterexample: on the empty input (zero records) the log transform
returns the empty array — the repaired text is `[]`, which `JSON.parse`
accepts — instead of raising. -/
theorem log_empty_input_returns :
    parsers.log "" = Except.ok (JVal.jarr []) := rfl

/-- C3 (amended): the empty input yields the empty array, and the decode
failure occurs only when the repaired text is invalid JSON, e.g. input
`"xy"` whose repaired text is `[x]`. -/
theorem log_empty_ok_invalid_raises :
    parsers.log "" = Except.ok (JVal.jarr [])
      ∧ parsers.log "xy" = Except.error JsErr.jsonError :=
  ⟨rfl, rfl⟩

/-- C5: a single well-formed record whose message value contains a literal
double-quoted substring decodes to a one-entry sequence whose message
field is exactly `He said "hi"` — the inner quotes are escaped by the
repair pass and preserved by the decode. -/
theorem log_preserves_inner_quotes :
    parsers.log "\x7b\"commit\": \"abc\", \"author\": \"Ann\", \"date\": \"Mon\", \"message\": \"He said \"hi\"\"\x7d,"
      = Except.ok (JVal.jarr [JVal.jobj
          [("commit", JVal.jstr "abc"), ("author", JVal.jstr "Ann"),
           ("date", JVal.jstr "Mon"),
           ("message", JVal.jstr "He said \"hi\"")]]) := rfl
